import Mathlib

/-! gin-demo: the libp2p echo peer and its HTTP control endpoint

A shallow embedding of `main.go`.  The program is one Go file that glues
together library calls (bufio, go-libp2p, go-multiaddr, gin); each library
object the program touches is represented by a small explicit state type and
the program's own functions (`doEcho`, the `/echo/1.0.0` stream handler,
`getHostAddress`, `getConnectionInfo`, `makeBasicHost`, `main`) are written
over those types statement by statement.

Conventions
* a Go `error` result is `Option Error` (`none` is `nil`);
* a Go pointer/interface result that may be `nil` is an `Option`;
* a Go `[]byte`/`string` holding wire data is a `List Byte`;
* a call that may wait on the peer forever has an `Outcome`: it returned, or
  it is blocked in a read;
* calls to the logger (`log.Println`, `log.Printf`) are left out: they write
  to the process log only and touch none of the modelled state.
-/

namespace GinDemo

/-! ## Errors and bytes -/

/-- One byte of wire data. -/
abbrev Byte := UInt8

/-- The line terminator, the Go rune literal for newline. -/
def newline : Byte := 10

/-- Values of Go's `error` interface that occur in the program. -/
inductive Error where
  /-- The value `io.EOF`: the peer closed its writing side. -/
  | EOF
  /-- The stream was reset or the connection failed. -/
  | streamReset
  /-- An error made by `fmt.Errorf` in the program, with its text. -/
  | errorf (msg : String)
  /-- Any other error reported by a library or the operating system. -/
  | lib (msg : String)
deriving DecidableEq, Repr

/-! ## network.Stream -/

/-- The data of one `Read` call that delivered bytes.  A `Read` on a network
stream blocks until at least one byte is available or the stream fails, so a
successful read is never empty. -/
structure Chunk where
  first : Byte
  rest : List Byte
deriving DecidableEq, Repr

/-- The bytes of a chunk. -/
def Chunk.bytes (c : Chunk) : List Byte := c.first :: c.rest

/-- Calls made on the writing/teardown side of a stream, as the peer's
transport sees them. -/
inductive StreamCall where
  | Write (p : List Byte)
  | Close
  | Reset
deriving DecidableEq, Repr

/-- A `network.Stream` as seen by its handler.

* `incoming`: what the successive `Read` calls will deliver, in order; the
  peer is free to cut its data into chunks as it likes;
* `readEnd`: what happens once `incoming` is used up: `some e` when `Read` then
  reports the error `e` (`io.EOF` when the peer closed, another error when the
  stream failed), `none` when the peer stays connected and sends nothing more,
  so that `Read` blocks forever (the program sets no read deadline);
* `writeFault`: `none` when `Write` accepts everything, `some (n, e)` when it
  accepts at most `n` bytes and then fails with `e`;
* `sent`: the bytes written back to the peer so far;
* `calls`: the log of `Write`/`Close`/`Reset` calls, oldest first. -/
structure Stream where
  incoming : List Chunk
  readEnd : Option Error
  writeFault : Option (Nat × Error)
  sent : List Byte
  calls : List StreamCall
deriving DecidableEq, Repr

/-- The outcome of a call that may wait on the peer: it returned a value, or it
is blocked forever in `Read`, the stream being left as `s`. -/
inductive Outcome (α : Type) where
  | returned (a : α)
  | blocked (s : Stream)
deriving DecidableEq, Repr

/-- All bytes the peer sends on the stream. -/
def Stream.received (s : Stream) : List Byte :=
  s.incoming.flatMap Chunk.bytes

/-- The call `s.Write(p)`: returns the number of bytes accepted and the error. -/
def Stream.Write (s : Stream) (p : List Byte) : (Nat × Option Error) × Stream :=
  match s.writeFault with
  | none =>
    ((p.length, none),
      { s with sent := s.sent ++ p, calls := s.calls ++ [StreamCall.Write p] })
  | some (n, e) =>
    ((min n p.length, some e),
      { s with sent := s.sent ++ p.take n, calls := s.calls ++ [StreamCall.Write p] })

/-- The call `s.Close()`; the program ignores its result. -/
def Stream.Close (s : Stream) : Stream :=
  { s with calls := s.calls ++ [StreamCall.Close] }

/-- The call `s.Reset()`; the program ignores its result. -/
def Stream.Reset (s : Stream) : Stream :=
  { s with calls := s.calls ++ [StreamCall.Reset] }

/-! ## bufio.Reader -/

namespace bufio

/-- Split a byte slice after the first occurrence of `delim`: the part up to
and including the delimiter and the part after it; `none` when there is no
delimiter. -/
def cut (delim : Byte) : List Byte → Option (List Byte × List Byte)
  | [] => none
  | b :: bs =>
    if b = delim then some ([b], bs)
    else
      match cut delim bs with
      | none => none
      | some (l, r) => some (b :: l, r)

/-- A `bufio.Reader`: the underlying stream and the bytes read from it that
no caller has consumed yet. -/
structure Reader where
  rd : Stream
  buf : List Byte
deriving DecidableEq, Repr

/-- The call `bufio.NewReader(s)`. -/
def NewReader (s : Stream) : Reader := { rd := s, buf := [] }

/-- The fill-and-search loop of `ReadString`: `acc` is what was collected so
far (it holds no delimiter); each round takes the next `Read` result from the
stream and searches it.  Returns the string, the error, the bytes left in
the buffer and the reads left on the stream, or `none` when a `Read` blocks
forever. -/
def readLoop (delim : Byte) (readEnd : Option Error) (acc : List Byte) :
    List Chunk → Option ((List Byte × Option Error) × (List Byte × List Chunk))
  | [] =>
    match readEnd with
    | some err => some ((acc, some err), ([], []))
    | none => none
  | c :: cs =>
    match cut delim c.bytes with
    | some (l, r) => some ((acc ++ l, none), (r, cs))
    | none => readLoop delim readEnd (acc ++ c.bytes) cs

/-- The method `(*Reader).ReadString(delim)`: reads until the first occurrence
of `delim`, returning the data up to and including the delimiter; when the
underlying reader fails first, returns the data read before the error and the
error itself; when the underlying reader blocks first, it does not return. -/
def Reader.ReadString (b : Reader) (delim : Byte) :
    Outcome ((List Byte × Option Error) × Reader) :=
  match cut delim b.buf with
  | some (l, r) => Outcome.returned ((l, none), { b with buf := r })
  | none =>
    match readLoop delim b.rd.readEnd b.buf b.rd.incoming with
    | some out =>
      Outcome.returned (out.1, { rd := { b.rd with incoming := out.2.2 }, buf := out.2.1 })
    | none => Outcome.blocked { b.rd with incoming := [] }

end bufio

/-! ## The echo protocol -/

/-- The function `doEcho`: reads a line of data from a stream and writes it
back.  Returns the error and the stream as the calls left it, or stays blocked
in the read. -/
def doEcho (s : Stream) : Outcome (Option Error × Stream) :=
  let buf := bufio.NewReader s
  match buf.ReadString newline with
  | Outcome.blocked s1 => Outcome.blocked s1
  | Outcome.returned rd =>
    let str := rd.1.1
    match rd.1.2 with
    | some err => Outcome.returned (some err, rd.2.rd)
    | none =>
      let wr := rd.2.rd.Write str
      Outcome.returned (wr.1.2, wr.2)

/-- The function literal that `main` registers with `SetStreamHandler` for the
protocol `/echo/1.0.0`: runs `doEcho`, then resets the stream on error and
closes it otherwise.  While `doEcho` is blocked, so is the handler. -/
def echoStreamHandler (s : Stream) : Outcome Stream :=
  match doEcho s with
  | Outcome.blocked s1 => Outcome.blocked s1
  | Outcome.returned r =>
    match r.1 with
    | some _ => Outcome.returned r.2.Reset
    | none => Outcome.returned r.2.Close

/-- The bytes up to and including the first newline of `bs` (when `bs` has
one). -/
def firstLine (bs : List Byte) : List Byte :=
  bs.takeWhile (fun b => b != newline) ++ [newline]

/-- The calls on the stream that a returned handler leaves behind; `none` for a
handler that is blocked. -/
def Outcome.calls? : Outcome Stream → Option (List StreamCall)
  | Outcome.returned s => some s.calls
  | Outcome.blocked _ => none

/-- A stream on which nothing has been written yet. -/
def Stream.fresh (incoming : List Chunk) (readEnd : Option Error)
    (writeFault : Option (Nat × Error)) : Stream :=
  { incoming := incoming, readEnd := readEnd, writeFault := writeFault, sent := [], calls := [] }

/-- The ASCII bytes of `hello world` followed by a newline. -/
def helloWorldLine : List Byte :=
  [104, 101, 108, 108, 111, 32, 119, 111, 114, 108, 100, 10]

/-- A peer that sends `hello world` and a newline in two pieces, then more data,
and closes. -/
def helloStream : Stream :=
  Stream.fresh
    [⟨104, [101, 108, 108, 111, 32]⟩, ⟨119, [111, 114, 108, 100, 10, 120, 121]⟩, ⟨122, [10]⟩]
    (some Error.EOF) none

/-- A peer that sends the seven bytes of the word "partial" and closes. -/
def truncatedStream : Stream :=
  Stream.fresh [⟨112, [97, 114]⟩, ⟨116, [105, 97, 108]⟩] (some Error.EOF) none

/-- A peer that sends `hi` and a newline on a stream whose writing side fails
after one byte. -/
def faultyStream : Stream :=
  Stream.fresh [⟨104, [105, 10]⟩] (some Error.EOF) (some (1, Error.streamReset))

/-- A peer that sends the three bytes `par`, then stays connected and sends
nothing more. -/
def silentStream : Stream :=
  Stream.fresh [⟨112, [97, 114]⟩] none none

/-! ## Multiaddresses (go-multiaddr) and peer IDs

A multiaddress is a sequence of components, each a protocol name with an
optional value; `nil` is the empty multiaddress.  Its text form writes every
component as `/name/value` one after the other. -/

/-- The base58 (Bitcoin) alphabet, in which peer IDs are written. -/
def base58Alphabet : List Char :=
  "123456789ABCDEFGHJKLMNPQRSTUVWXYZabcdefghijkmnopqrstuvwxyz".toList

/-- Whether a text is a non-empty base58 string. -/
def isBase58Text (cs : List Char) : Bool :=
  !cs.isEmpty && cs.all (fun c => base58Alphabet.contains c)

namespace peer

/-- A `peer.ID`, held as the text its `String()` method returns: the base58
encoding of the multihash of the peer's public key, always a non-empty base58
string. -/
structure ID where
  text : String
  wf : isBase58Text text.toList = true

/-- The method `ID.String()`. -/
def ID.String (id : ID) : String := id.text

end peer

namespace ma

/-- One entry of the protocol table: the name and whether a value follows. -/
structure Protocol where
  Name : String
  hasValue : Bool
deriving DecidableEq, Repr

/-- Whether a text is a decimal numeral without sign or leading zero whose
value is at most `bound`. -/
def isDecimalUpTo (bound : Nat) (cs : List Char) : Bool :=
  !cs.isEmpty && cs.all Char.isDigit && (cs.length == 1 || cs.head? != some '0') &&
    decide (cs.foldl (fun n c => 10 * n + (c.toNat - 48)) 0 ≤ bound)

/-- Split a text at every occurrence of `sep`, like `strings.Split`. -/
def splitAt (sep : Char) : List Char → List (List Char)
  | [] => [[]]
  | c :: cs =>
    if c = sep then [] :: splitAt sep cs
    else
      match splitAt sep cs with
      | [] => [[c]]
      | seg :: segs => (c :: seg) :: segs

/-- The part of the protocol table the program's addresses use. -/
def Protocols : List Protocol :=
  [⟨"ip4", true⟩, ⟨"tcp", true⟩, ⟨"udp", true⟩, ⟨"p2p", true⟩, ⟨"quic-v1", false⟩, ⟨"ws", false⟩]

/-- The function `ProtocolWithName`. -/
def ProtocolWithName (name : String) : Option Protocol :=
  Protocols.find? (fun p => p.Name == name)

/-- The text-to-value check of a protocol's transcoder: a dotted quad for `ip4`,
a port number for `tcp` and `udp`, a peer ID for `p2p`.  Only values already in
the form the library prints them in are accepted. -/
def validValue (name : String) (v : List Char) : Bool :=
  if name == "ip4" then
    (splitAt '.' v).length == 4 && (splitAt '.' v).all (isDecimalUpTo 255)
  else if name == "tcp" || name == "udp" then isDecimalUpTo 65535 v
  else if name == "p2p" then isBase58Text v
  else false

/-- One component of a multiaddress; `Value` is empty for a protocol without a
value. -/
structure Component where
  Protocol : String
  Value : String
deriving DecidableEq, Repr

/-- A multiaddress; the `nil` multiaddress is the empty one. -/
abbrev Multiaddr := List Component

/-- The text of one component. -/
def Component.String (c : Component) : String :=
  if c.Value = "" then "/" ++ c.Protocol else "/" ++ c.Protocol ++ "/" ++ c.Value

/-- The method `Multiaddr.String()`. -/
def Multiaddr.String : Multiaddr → String
  | [] => ""
  | c :: cs => c.String ++ Multiaddr.String cs

/-- The method `Multiaddr.Encapsulate(other)`: the components of `m` followed by
those of `other`. -/
def Multiaddr.Encapsulate (m other : Multiaddr) : Multiaddr := m ++ other

/-- The component loop of the text reader: takes a protocol name, then its value
when the protocol has one. -/
def parseComponents : List (List Char) → Option Multiaddr
  | [] => some []
  | name :: rest =>
    match ProtocolWithName (String.mk name) with
    | none => none
    | some p =>
      if p.hasValue then
        match rest with
        | [] => none
        | v :: rest2 =>
          if validValue p.Name v then
            match parseComponents rest2 with
            | none => none
            | some m => some (⟨p.Name, String.mk v⟩ :: m)
          else none
      else
        match parseComponents rest with
        | none => none
        | some m => some (⟨p.Name, ""⟩ :: m)

/-- The function `NewMultiaddr(s)`: drops trailing slashes, requires a leading
slash and at least one component, and reads the components.  On failure the
result is the `nil` multiaddress and an error. -/
def NewMultiaddr (s : String) : Multiaddr × Option Error :=
  match splitAt '/' (s.toList.rdropWhile (fun c => c == '/')) with
  | [] :: seg :: segs =>
    match parseComponents (seg :: segs) with
    | some m => (m, none)
    | none => ([], some (Error.lib ("failed to parse multiaddr " ++ s)))
  | _ => ([], some (Error.lib ("failed to parse multiaddr " ++ s)))

end ma

/-! ## Keys and randomness -/

namespace crypto

/-- The key types of go-libp2p's `crypto` package. -/
inductive KeyType where
  | RSA
  | Ed25519
  | Secp256k1
  | ECDSA
deriving DecidableEq, Repr

/-- A private key together with the public key that belongs to it. -/
structure PrivKey where
  typ : KeyType
  secret : List Byte
  pub : List Byte
deriving DecidableEq, Repr

/-- A public key. -/
structure PubKey where
  typ : KeyType
  bytes : List Byte
deriving DecidableEq, Repr

/-- The method `PrivKey.GetPublic()`. -/
def PrivKey.GetPublic (k : PrivKey) : PubKey := { typ := k.typ, bytes := k.pub }

end crypto

/-- The `io.Reader` values the program uses as a source of randomness. -/
inductive RandReader where
  /-- The value `rand.Reader` of `crypto/rand`: the operating system's
  cryptographic source. -/
  | cryptoReader
  /-- The value `mrand.New(mrand.NewSource(seed))` of `math/rand`. -/
  | mathRand (seed : Int)
deriving DecidableEq, Repr

/-- The deterministic library algorithms the program calls without defining
them.  They are the same in every run of the program. -/
structure Algorithms where
  /-- Byte number `i` of the output of the `math/rand` generator seeded with
  `seed`. -/
  mrandByte : Int → Nat → Byte
  /-- The Ed25519 public key of a 32-byte seed. -/
  ed25519Public : List Byte → List Byte
  /-- The function `peer.IDFromPublicKey`. -/
  IDFromPublicKey : crypto.PubKey → peer.ID
  /-- Key generation for the key types other than Ed25519, from the bytes the
  reader supplies. -/
  otherKeyPair : crypto.KeyType → Nat → (Nat → Byte) → Except Error crypto.PrivKey

/-- What the machine and the network decide in one run of the program. -/
structure World where
  /-- The operating system's entropy: an error when the source fails, the
  stream of random bytes otherwise. -/
  osRandom : Except Error (Nat → Byte)
  /-- The outcome of listening on the given addresses: an error (port in use,
  no permission), or the addresses the host then reports from `Addrs()`. -/
  listen : List ma.Multiaddr → Except Error (List ma.Multiaddr)

/-- The bytes a reader supplies in a run: the stream of bytes, or the error of
the first failing `Read`.  The `math/rand` reader never fails. -/
def RandReader.supply (alg : Algorithms) (w : World) : RandReader → Except Error (Nat → Byte)
  | RandReader.cryptoReader => w.osRandom
  | RandReader.mathRand seed => Except.ok (alg.mrandByte seed)

/-- The call `io.ReadFull(r, buf)` with a buffer of `n` bytes: the bytes read,
or the error. -/
def RandReader.ReadFull (alg : Algorithms) (w : World) (r : RandReader) (n : Nat) :
    Except Error (List Byte) :=
  match r.supply alg w with
  | Except.ok f => Except.ok ((List.range n).map f)
  | Except.error err => Except.error err

/-- The function `ed25519.NewKeyFromSeed(seed)`, its result held as a libp2p
private key: the key is a function of the seed bytes alone. -/
def ed25519.NewKeyFromSeed (alg : Algorithms) (seed : List Byte) : crypto.PrivKey :=
  { typ := crypto.KeyType.Ed25519, secret := seed, pub := alg.ed25519Public seed }

namespace crypto

/-- The function `GenerateEd25519Key(src)`: reads a 32-byte seed from `src` and
derives the key pair from it; returns the pair or the error of the read. -/
def GenerateEd25519Key (alg : Algorithms) (w : World) (src : RandReader) :
    Except Error (PrivKey × PubKey) :=
  match src.ReadFull alg w 32 with
  | Except.error err => Except.error err
  | Except.ok seed =>
    let priv := ed25519.NewKeyFromSeed alg seed
    Except.ok (priv, priv.GetPublic)

/-- The function `GenerateKeyPairWithReader(typ, bits, src)`; `bits` matters
for RSA only. -/
def GenerateKeyPairWithReader (alg : Algorithms) (w : World) (typ : KeyType) (bits : Nat)
    (src : RandReader) : Except Error (PrivKey × PubKey) :=
  match typ with
  | KeyType.Ed25519 => GenerateEd25519Key alg w src
  | other =>
    match src.supply alg w with
    | Except.error err => Except.error err
    | Except.ok f =>
      match alg.otherKeyPair other bits f with
      | Except.error err => Except.error err
      | Except.ok priv => Except.ok (priv, priv.GetPublic)

end crypto

/-! ## The libp2p host -/

namespace libp2p

/-- The values of type `libp2p.Option` the program passes to `libp2p.New`. -/
inductive HostOption where
  | ListenAddrStrings (s : String)
  | Identity (sk : crypto.PrivKey)
  | NoSecurity
deriving DecidableEq, Repr

/-- The configuration that the options build up. -/
structure Config where
  ListenAddrs : List ma.Multiaddr
  PeerKey : Option crypto.PrivKey
  Insecure : Bool
deriving DecidableEq, Repr

end libp2p

/-- A running `host.Host`: its identity, the addresses it listens on, and
whether it was built without transport security. -/
structure Host where
  ID : peer.ID
  Addrs : List ma.Multiaddr
  PeerKey : crypto.PrivKey
  Insecure : Bool

namespace libp2p

/-- Apply one option to the configuration. -/
def HostOption.apply (o : HostOption) (cfg : Config) : Config × Option Error :=
  match o with
  | HostOption.ListenAddrStrings s =>
    let a := ma.NewMultiaddr s
    match a.2 with
    | some err => (cfg, some err)
    | none => ({ cfg with ListenAddrs := cfg.ListenAddrs ++ [a.1] }, none)
  | HostOption.Identity sk =>
    match cfg.PeerKey with
    | some _ => (cfg, some (Error.lib "cannot specify multiple identities"))
    | none => ({ cfg with PeerKey := some sk }, none)
  | HostOption.NoSecurity => ({ cfg with Insecure := true }, none)

/-- Apply the options in order, stopping at the first error. -/
def applyAll : List HostOption → Config → Config × Option Error
  | [], cfg => (cfg, none)
  | o :: os, cfg =>
    let r := o.apply cfg
    match r.2 with
    | some err => (r.1, some err)
    | none => applyAll os r.1

/-- The function `libp2p.New(opts...)`: builds the configuration, falls back to
a fresh random identity when none was given, listens, and returns the host or
an error. -/
def New (alg : Algorithms) (w : World) (opts : List HostOption) : Except Error Host :=
  let c := applyAll opts { ListenAddrs := [], PeerKey := none, Insecure := false }
  match c.2 with
  | some err => Except.error err
  | none =>
    let key : Except Error crypto.PrivKey :=
      match c.1.PeerKey with
      | some sk => Except.ok sk
      | none =>
        match crypto.GenerateEd25519Key alg w RandReader.cryptoReader with
        | Except.ok kp => Except.ok kp.1
        | Except.error err => Except.error err
    match key with
    | Except.error err => Except.error err
    | Except.ok sk =>
      match w.listen c.1.ListenAddrs with
      | Except.error err => Except.error err
      | Except.ok addrs =>
        Except.ok { ID := alg.IDFromPublicKey sk.GetPublic, Addrs := addrs, PeerKey := sk,
                    Insecure := c.1.Insecure }

end libp2p

/-! ## The program -/

/-- The constant `WEB_PORT`. -/
def WEB_PORT : Int := 8080

/-- The constant `P2P_PORT`. -/
def P2P_PORT : Int := 8081

/-- The function `getHostAddress`: returns the full multiaddress of the host. -/
def getHostAddress (h : Host) : String :=
  let hostAddr := (ma.NewMultiaddr ("/p2p/" ++ h.ID.String)).1
  let addrs := h.Addrs
  match addrs with
  | [] => "no addresses"
  | addr :: _ =>
    let fullAddr := addr.Encapsulate hostAddr
    fullAddr.String

namespace gin

/-- A JSON value, as far as the program's responses need it. -/
inductive JSON where
  | str (s : String)
  | obj (fields : List (String × JSON))
deriving Repr

/-- What a handler has written to its `gin.Context`: the status code and the
JSON value of the body. -/
structure Response where
  status : Nat
  body : JSON
deriving Repr

/-- The method `(*Context).IndentedJSON(code, obj)`. -/
def IndentedJSON (code : Nat) (obj : JSON) : Response := { status := code, body := obj }

end gin

namespace http

/-- The constant `http.StatusOK`. -/
def StatusOK : Nat := 200

end http

/-- The function `getConnectionInfo`: returns the URI with the hash.  The
package variable `ha` it reads is passed in. -/
def getConnectionInfo (ha : Host) : gin.Response :=
  let fullAddr := getHostAddress ha
  gin.IndentedJSON http.StatusOK (gin.JSON.obj [("connection_info", gin.JSON.str fullAddr)])

/-- The choice of the randomness source in `makeBasicHost`: real cryptographic
randomness for seed zero, a deterministic source otherwise. -/
def randSource (randseed : Int) : RandReader :=
  if randseed = 0 then RandReader.cryptoReader else RandReader.mathRand randseed

/-- The option list `makeBasicHost` builds for `libp2p.New`. -/
def hostOptions (listenPort : Int) (insecure : Bool) (priv : crypto.PrivKey) :
    List libp2p.HostOption :=
  let opts :=
    [libp2p.HostOption.ListenAddrStrings ("/ip4/0.0.0.0/tcp/" ++ toString listenPort),
     libp2p.HostOption.Identity priv]
  if insecure then opts ++ [libp2p.HostOption.NoSecurity] else opts

/-- The function `makeBasicHost`: creates a libp2p host with a random peer ID
listening on the given port.  Returns the Go pair of host and error.  The full
address it builds from the first listen address is only logged. -/
def makeBasicHost (alg : Algorithms) (w : World) (listenPort : Int) (insecure : Bool)
    (randseed : Int) : Option Host × Option Error :=
  let r := randSource randseed
  match crypto.GenerateKeyPairWithReader alg w crypto.KeyType.Ed25519 2048 r with
  | Except.error err => (none, some err)
  | Except.ok (priv, _) =>
    let opts := hostOptions listenPort insecure priv
    match libp2p.New alg w opts with
    | Except.error err => (none, some err)
    | Except.ok bhost =>
      let addrs := bhost.Addrs
      if addrs.length = 0 then (none, some (Error.errorf "no addresses"))
      else (some bhost, none)

/-- The state of the process once `main` is past start-up. -/
inductive Process where
  /-- The call `log.Fatal(err)` ended the process. -/
  | exited (err : Error)
  /-- The package variable `ha` is set, the echo handler is registered for the
  protocol and the HTTP routes are served. -/
  | running (ha : Option Host) (protocol : String) (handler : Stream → Outcome Stream)
      (routes : List (String × (Host → gin.Response)))

/-- The function `main`, up to the point where it blocks forever.  The sample
route `/albums` does not read the host and is left out. -/
def main (alg : Algorithms) (w : World) : Process :=
  match makeBasicHost alg w P2P_PORT false 0 with
  | (_, some err) => Process.exited err
  | (ha, none) =>
    Process.running ha "/echo/1.0.0" echoStreamHandler [("/connection-info", getConnectionInfo)]

/-! ## Concrete hosts, algorithms and worlds for the examples -/

/-- A peer ID text. -/
def demoID : peer.ID := ⟨"12D3KooWDemoPeer", by decide⟩

/-- An Ed25519 key. -/
def demoKey : crypto.PrivKey := { typ := crypto.KeyType.Ed25519, secret := [1, 2, 3], pub := [4, 5, 6] }

/-- The address `/ip4/127.0.0.1/tcp/8081`. -/
def loopbackAddr : ma.Multiaddr := [⟨"ip4", "127.0.0.1"⟩, ⟨"tcp", "8081"⟩]

/-- The address `/ip4/192.168.1.20/tcp/8081`. -/
def lanAddr : ma.Multiaddr := [⟨"ip4", "192.168.1.20"⟩, ⟨"tcp", "8081"⟩]

/-- A host that reports two listen addresses. -/
def demoHost : Host :=
  { ID := demoID, Addrs := [loopbackAddr, lanAddr], PeerKey := demoKey, Insecure := false }

/-- A host that reports no listen address. -/
def hostWithoutAddrs : Host :=
  { ID := demoID, Addrs := [], PeerKey := demoKey, Insecure := false }

/-- Stand-ins for the library algorithms, of the right shape. -/
def demoAlgorithms : Algorithms :=
  { mrandByte := fun seed i => UInt8.ofNat (seed.toNat + 7 * i)
    ed25519Public := fun seed => seed.reverse
    IDFromPublicKey := fun _ => demoID
    otherKeyPair := fun _ _ _ => Except.error (Error.lib "unsupported") }

/-- A run in which the entropy source works and listening reports the
loopback address. -/
def calmWorld : World :=
  { osRandom := Except.ok (fun i => UInt8.ofNat (3 * i + 1))
    listen := fun _ => Except.ok [loopbackAddr] }

/-- A run in which the entropy source fails and the port is taken. -/
def roughWorld : World :=
  { osRandom := Except.error (Error.lib "entropy source unavailable")
    listen := fun _ => Except.error (Error.lib "address already in use") }

/-- Another run in which everything works, with other entropy and another
listen address. -/
def busyWorld : World :=
  { osRandom := Except.ok (fun i => UInt8.ofNat (5 * i + 2))
    listen := fun _ => Except.ok [lanAddr] }
/-! ## Facts about the line reader -/

theorem bufio.cut_eq_none {d : Byte} {bs : List Byte} (h : d ∉ bs) : bufio.cut d bs = none := by
  induction bs with
  | nil => rfl
  | cons b bs ih =>
    have hb : b ≠ d := fun e => h (by simp [e])
    have ht : d ∉ bs := fun e => h (by simp [e])
    simp [bufio.cut, hb, ih ht]

theorem bufio.cut_eq_some {d : Byte} {bs : List Byte} (h : d ∈ bs) :
    ∃ r, bufio.cut d bs = some (bs.takeWhile (fun b => b != d) ++ [d], r) := by
  induction bs with
  | nil => simp at h
  | cons b bs ih =>
    by_cases hb : b = d
    · exact ⟨bs, by simp [bufio.cut, hb]⟩
    · have ht : d ∈ bs := by
        rcases List.mem_cons.1 h with e | e
        · exact absurd e.symm hb
        · exact e
      obtain ⟨r, hr⟩ := ih ht
      exact ⟨r, by simp [bufio.cut, hb, hr]⟩

theorem takeWhile_append_of_not_mem {d : Byte} {xs ys : List Byte} (h : d ∉ xs) :
    (xs ++ ys).takeWhile (fun b => b != d) = xs ++ ys.takeWhile (fun b => b != d) := by
  induction xs with
  | nil => rfl
  | cons x xs ih =>
    have hx : x ≠ d := fun e => h (by simp [e])
    have ht : d ∉ xs := fun e => h (by simp [e])
    have hx2 : (x != d) = true := by simpa using hx
    rw [List.cons_append, List.takeWhile_cons, hx2, ih ht]
    rfl

theorem takeWhile_append_of_mem {d : Byte} {xs ys : List Byte} (h : d ∈ xs) :
    (xs ++ ys).takeWhile (fun b => b != d) = xs.takeWhile (fun b => b != d) := by
  induction xs with
  | nil => simp at h
  | cons x xs ih =>
    by_cases hx : x = d
    · have hx2 : (x != d) = false := by simp [hx]
      simp [List.takeWhile_cons, hx2]
    · have ht : d ∈ xs := by
        rcases List.mem_cons.1 h with e | e
        · exact absurd e.symm hx
        · exact e
      have hx2 : (x != d) = true := by simpa using hx
      simp [List.takeWhile_cons, hx2, ih ht]

theorem bufio.readLoop_found {d : Byte} (e : Option Error) (acc : List Byte) {cs : List Chunk}
    (h : d ∈ cs.flatMap Chunk.bytes) :
    ∃ left, bufio.readLoop d e acc cs =
      some ((acc ++ ((cs.flatMap Chunk.bytes).takeWhile (fun b => b != d) ++ [d]), none), left) := by
  induction cs generalizing acc with
  | nil => simp at h
  | cons c cs ih =>
    by_cases hc : d ∈ c.bytes
    · obtain ⟨r, hr⟩ := bufio.cut_eq_some hc
      exact ⟨(r, cs), by
        simp [bufio.readLoop, hr, List.flatMap_cons, takeWhile_append_of_mem hc]⟩
    · have ht : d ∈ cs.flatMap Chunk.bytes := by
        rw [List.flatMap_cons, List.mem_append] at h
        exact h.resolve_left hc
      obtain ⟨left, hl⟩ := ih (acc ++ c.bytes) ht
      exact ⟨left, by
        simp [bufio.readLoop, bufio.cut_eq_none hc, hl, List.flatMap_cons,
          takeWhile_append_of_not_mem hc]⟩

theorem bufio.readLoop_failed {d : Byte} (e : Error) (acc : List Byte) {cs : List Chunk}
    (h : d ∉ cs.flatMap Chunk.bytes) :
    bufio.readLoop d (some e) acc cs =
      some ((acc ++ cs.flatMap Chunk.bytes, some e), ([], [])) := by
  induction cs generalizing acc with
  | nil => simp [bufio.readLoop]
  | cons c cs ih =>
    rw [List.flatMap_cons, List.mem_append, not_or] at h
    simp [bufio.readLoop, bufio.cut_eq_none h.1, ih _ h.2, List.flatMap_cons]

theorem bufio.readLoop_blocked {d : Byte} (acc : List Byte) {cs : List Chunk}
    (h : d ∉ cs.flatMap Chunk.bytes) :
    bufio.readLoop d none acc cs = none := by
  induction cs generalizing acc with
  | nil => simp [bufio.readLoop]
  | cons c cs ih =>
    rw [List.flatMap_cons, List.mem_append, not_or] at h
    simp [bufio.readLoop, bufio.cut_eq_none h.1, ih _ h.2]

theorem firstLine_isPrefix {bs : List Byte} (h : newline ∈ bs) : firstLine bs <+: bs := by
  induction bs with
  | nil => simp at h
  | cons b bs ih =>
    by_cases hb : b = newline
    · have hb2 : (b != newline) = false := by simp [hb]
      simp [firstLine, List.takeWhile_cons, hb2, hb]
    · have ht : newline ∈ bs := by
        rcases List.mem_cons.1 h with e | e
        · exact absurd e.symm hb
        · exact e
      have hb2 : (b != newline) = true := by simpa using hb
      have := ih ht
      simpa [firstLine, List.takeWhile_cons, hb2] using this

theorem doEcho_of_line (s : Stream) (h : newline ∈ s.received) :
    ∃ rest, doEcho s =
      Outcome.returned
        ((({ s with incoming := rest } : Stream).Write (firstLine s.received)).1.2,
         (({ s with incoming := rest } : Stream).Write (firstLine s.received)).2) := by
  obtain ⟨left, hl⟩ := bufio.readLoop_found s.readEnd [] h
  exact ⟨left.2, by
    simp only [doEcho, bufio.NewReader, bufio.Reader.ReadString, bufio.cut, hl, firstLine,
      Stream.received, List.nil_append]⟩

theorem doEcho_of_line_written (s : Stream) (h : newline ∈ s.received)
    (hw : s.writeFault = none) :
    ∃ rest, doEcho s =
      Outcome.returned (none,
        { s with incoming := rest, sent := s.sent ++ firstLine s.received,
                 calls := s.calls ++ [StreamCall.Write (firstLine s.received)] }) := by
  obtain ⟨rest, hr⟩ := doEcho_of_line s h
  exact ⟨rest, by rw [hr]; simp only [Stream.Write, hw]⟩

theorem doEcho_of_line_unwritten (s : Stream) (h : newline ∈ s.received) (n : Nat) (e : Error)
    (hw : s.writeFault = some (n, e)) :
    ∃ rest, doEcho s =
      Outcome.returned (some e,
        { s with incoming := rest, sent := s.sent ++ (firstLine s.received).take n,
                 calls := s.calls ++ [StreamCall.Write (firstLine s.received)] }) := by
  obtain ⟨rest, hr⟩ := doEcho_of_line s h
  exact ⟨rest, by rw [hr]; simp only [Stream.Write, hw]⟩

theorem doEcho_of_no_line (s : Stream) (e : Error) (h : newline ∉ s.received)
    (hend : s.readEnd = some e) :
    doEcho s = Outcome.returned (some e, { s with incoming := [] }) := by
  have hl := bufio.readLoop_failed e [] h
  simp only [doEcho, bufio.NewReader, bufio.Reader.ReadString, bufio.cut, hend, hl]

theorem doEcho_of_silence (s : Stream) (h : newline ∉ s.received) (hend : s.readEnd = none) :
    doEcho s = Outcome.blocked { s with incoming := [] } := by
  have hl : bufio.readLoop newline none [] s.incoming = none := bufio.readLoop_blocked [] h
  simp only [doEcho, bufio.NewReader, bufio.Reader.ReadString, bufio.cut, hend, hl]

/-! ## The echo protocol: claims -/

/-- C1. On every stream whose incoming bytes contain a newline and whose write
succeeds, `doEcho` returns, with no error, after making exactly one call on the
stream, a single `Write` of the bytes up to and including the first newline;
these bytes are a leading part of what was received and are all that is sent
back.  This holds whatever follows the line, also when the peer then stays
silent. -/
theorem doEcho_echoes_first_line (s : Stream) (hnl : newline ∈ s.received)
    (hw : s.writeFault = none) :
    ∃ s1, doEcho s = Outcome.returned (none, s1) ∧
      s1.calls = s.calls ++ [StreamCall.Write (firstLine s.received)] ∧
      s1.sent = s.sent ++ firstLine s.received ∧
      firstLine s.received <+: s.received := by
  obtain ⟨rest, hr⟩ := doEcho_of_line_written s hnl hw
  exact ⟨_, hr, rfl, rfl, firstLine_isPrefix hnl⟩

/-- C1, at the input of the spec: the peer sends `hello world` and a newline (in
two reads, with more data behind) and gets exactly that line back. -/
theorem doEcho_echoes_first_line_witness :
    (newline ∈ helloStream.received ∧ helloStream.writeFault = none) ∧
    firstLine helloStream.received = helloWorldLine ∧
    ∃ s1, doEcho helloStream = Outcome.returned (none, s1) ∧
      s1.calls = helloStream.calls ++ [StreamCall.Write (firstLine helloStream.received)] ∧
      s1.sent = helloStream.sent ++ firstLine helloStream.received ∧
      firstLine helloStream.received <+: helloStream.received :=
  ⟨⟨by decide, by decide⟩, by decide,
    doEcho_echoes_first_line helloStream (by decide) (by decide)⟩

/-- C2. On every stream that closes or fails before any newline has been
received, `doEcho` returns the stream's error (so a non-nil error) and makes no
call on the writing side: nothing is written back. -/
theorem doEcho_incomplete_line (s : Stream) (e : Error) (hnl : newline ∉ s.received)
    (hend : s.readEnd = some e) :
    ∃ s1, doEcho s = Outcome.returned (some e, s1) ∧
      s1.calls = s.calls ∧
      s1.sent = s.sent := by
  rw [doEcho_of_no_line s e hnl hend]
  exact ⟨_, rfl, rfl, rfl⟩

/-- C2, at the input of the spec: the peer sends the word "partial" without a
newline and closes. -/
theorem doEcho_incomplete_line_witness :
    (newline ∉ truncatedStream.received ∧ truncatedStream.readEnd = some Error.EOF) ∧
    ∃ s1, doEcho truncatedStream = Outcome.returned (some Error.EOF, s1) ∧
      s1.calls = truncatedStream.calls ∧
      s1.sent = truncatedStream.sent :=
  ⟨⟨by decide, rfl⟩, doEcho_incomplete_line truncatedStream Error.EOF (by decide) rfl⟩

/-- C3, as the code has it. On every stream on which `doEcho` returns, that is,
when the peer sends a newline or the stream closes or fails, the `/echo/1.0.0`
handler returns after exactly one teardown call, made last: the calls it adds
are the `Write` calls of `doEcho` (never a `Close` or `Reset`) followed by one
final call, which is `Close` exactly when `doEcho` returned no error and `Reset`
exactly when it returned one; `doEcho` returns no error exactly when a line was
received and the write succeeded.  On a stream whose peer stays connected
without sending a newline, `doEcho` stays blocked in its read, the handler with
it, and no call is made on the stream. -/
theorem echoStreamHandler_close_xor_reset (s : Stream) :
    ((newline ∈ s.received ∨ s.readEnd ≠ none) →
      ∃ (err : Option Error) (s1 final : Stream) (ws : List StreamCall) (last : StreamCall),
        doEcho s = Outcome.returned (err, s1) ∧
        echoStreamHandler s = Outcome.returned final ∧
        final.calls = s.calls ++ ws ++ [last] ∧
        s1.calls = s.calls ++ ws ∧
        (∀ c ∈ ws, c ≠ StreamCall.Close ∧ c ≠ StreamCall.Reset) ∧
        (last = StreamCall.Close ∨ last = StreamCall.Reset) ∧
        (last = StreamCall.Close ↔ err = none) ∧
        (last = StreamCall.Reset ↔ err ≠ none) ∧
        (err = none ↔ newline ∈ s.received ∧ s.writeFault = none)) ∧
    ((newline ∉ s.received ∧ s.readEnd = none) →
      ∃ s1, doEcho s = Outcome.blocked s1 ∧ echoStreamHandler s = Outcome.blocked s1 ∧
        s1.calls = s.calls) := by
  constructor
  · intro h
    by_cases hnl : newline ∈ s.received
    · cases hw : s.writeFault with
      | none =>
        obtain ⟨rest, hr⟩ := doEcho_of_line_written s hnl hw
        refine ⟨none, _, _, [StreamCall.Write (firstLine s.received)], StreamCall.Close,
          hr, by rw [echoStreamHandler, hr], ?_⟩
        simp [Stream.Close, hnl]
      | some f =>
        obtain ⟨rest, hr⟩ := doEcho_of_line_unwritten s hnl f.1 f.2 hw
        refine ⟨some f.2, _, _, [StreamCall.Write (firstLine s.received)], StreamCall.Reset,
          hr, by rw [echoStreamHandler, hr], ?_⟩
        simp [Stream.Reset]
    · have hend : s.readEnd ≠ none := h.resolve_left hnl
      obtain ⟨e, he⟩ := Option.ne_none_iff_exists'.1 hend
      refine ⟨some e, _, _, [], StreamCall.Reset, doEcho_of_no_line s e hnl he, by
        rw [echoStreamHandler, doEcho_of_no_line s e hnl he], ?_⟩
      simp [Stream.Reset, hnl]
  · rintro ⟨hnl, hend⟩
    refine ⟨_, doEcho_of_silence s hnl hend, ?_, rfl⟩
    rw [echoStreamHandler, doEcho_of_silence s hnl hend]

/-- C3, the amended statement on four streams: a complete line with a working
write ends in `Close`; a complete line with a failing write and an incomplete
line before a close end in `Reset`; on the silent stream the handler stays
blocked. -/
theorem echoStreamHandler_close_xor_reset_witness :
    (echoStreamHandler helloStream).calls? =
      some [StreamCall.Write helloWorldLine, StreamCall.Close] ∧
    (echoStreamHandler faultyStream).calls? =
      some [StreamCall.Write [104, 105, 10], StreamCall.Reset] ∧
    (echoStreamHandler truncatedStream).calls? = some [StreamCall.Reset] ∧
    (echoStreamHandler silentStream).calls? = none ∧
    ((newline ∉ silentStream.received ∧ silentStream.readEnd = none) →
      ∃ s1, doEcho silentStream = Outcome.blocked s1 ∧
        echoStreamHandler silentStream = Outcome.blocked s1 ∧
        s1.calls = silentStream.calls) :=
  ⟨by decide, by decide, by decide, by decide,
    (echoStreamHandler_close_xor_reset silentStream).2⟩

/-- C3 as stated fails: the peer sends `par`, then stays connected and silent.
The handler never gets past the read of `doEcho`; the stream is left with no
call on it at all, neither `Close` nor `Reset`. -/
theorem echoStreamHandler_silent_peer_left_open :
    newline ∉ silentStream.received ∧
    silentStream.readEnd = none ∧
    doEcho silentStream = Outcome.blocked (Stream.fresh [] none none) ∧
    echoStreamHandler silentStream = Outcome.blocked (Stream.fresh [] none none) ∧
    StreamCall.Close ∉ (Stream.fresh [] none none).calls ∧
    StreamCall.Reset ∉ (Stream.fresh [] none none).calls := by
  decide

/-! ## Facts about multiaddress text -/

theorem ma.splitAt_of_not_mem {sep : Char} {cs : List Char} (h : sep ∉ cs) :
    ma.splitAt sep cs = [cs] := by
  induction cs with
  | nil => rfl
  | cons c cs ih =>
    have hc : c ≠ sep := fun e => h (by simp [e])
    have ht : sep ∉ cs := fun e => h (by simp [e])
    simp [ma.splitAt, hc, ih ht]

theorem isBase58Text_ne_nil {cs : List Char} (h : isBase58Text cs = true) : cs ≠ [] := by
  intro e
  subst e
  simp [isBase58Text] at h

theorem isBase58Text_mem {cs : List Char} (h : isBase58Text cs = true) {c : Char} (hc : c ∈ cs) :
    c ∈ base58Alphabet := by
  simp only [isBase58Text, Bool.and_eq_true, List.all_eq_true] at h
  simpa using h.2 c hc

theorem slash_not_mem_base58 {cs : List Char} (h : isBase58Text cs = true) : '/' ∉ cs := by
  intro hc
  have := isBase58Text_mem h hc
  revert this
  decide

theorem rdropWhile_slash_base58 (pre : List Char) {cs : List Char} (h : isBase58Text cs = true) :
    (pre ++ cs).rdropWhile (fun c => c == '/') = pre ++ cs := by
  obtain ⟨l, a, rfl⟩ : ∃ l a, cs = l ++ [a] := by
    rcases List.eq_nil_or_concat cs with e | ⟨l, a, e⟩
    · exact absurd e (isBase58Text_ne_nil h)
    · exact ⟨l, a, by simpa using e⟩
  have ha : a ≠ '/' := by
    intro e
    exact slash_not_mem_base58 h (by simp [e])
  rw [← List.append_assoc]
  exact List.rdropWhile_concat_neg _ _ _ (by simpa using ha)

theorem peer.ID.text_ne_empty (id : peer.ID) : id.text ≠ "" := by
  intro e
  have h := id.wf
  rw [e] at h
  revert h
  decide

theorem ma.NewMultiaddr_p2p (id : peer.ID) :
    ma.NewMultiaddr ("/p2p/" ++ id.String) = ([⟨"p2p", id.text⟩], none) := by
  have hwf : isBase58Text id.text.data = true := id.wf
  have hs : ("/p2p/" ++ id.String).toList = ['/', 'p', '2', 'p', '/'] ++ id.text.data := by
    simp [peer.ID.String, String.toList]
  have hv : ma.validValue "p2p" id.text.data = true := by
    simp [ma.validValue, hwf]
  have hp : ma.ProtocolWithName (String.mk ['p', '2', 'p']) = some ⟨"p2p", true⟩ := by decide
  have hsp : ma.splitAt '/' id.text.data = [id.text.data] :=
    ma.splitAt_of_not_mem (slash_not_mem_base58 hwf)
  simp only [ma.NewMultiaddr, hs, rdropWhile_slash_base58 _ hwf]
  simp [ma.splitAt, hsp, ma.parseComponents, hp, hv]

theorem ma.Multiaddr.String_append (a b : ma.Multiaddr) :
    ma.Multiaddr.String (a ++ b) = ma.Multiaddr.String a ++ ma.Multiaddr.String b := by
  induction a with
  | nil => simp [ma.Multiaddr.String]
  | cons c cs ih => simp [ma.Multiaddr.String, ih, String.append_assoc]

theorem getHostAddress_cons (h : Host) (addr : ma.Multiaddr) (rest : List ma.Multiaddr)
    (ha : h.Addrs = addr :: rest) :
    getHostAddress h = addr.String ++ ("/p2p/" ++ h.ID.String) := by
  have hp := ma.NewMultiaddr_p2p h.ID
  simp only [peer.ID.String] at hp
  simp [getHostAddress, ha, hp, ma.Multiaddr.Encapsulate,
    ma.Multiaddr.String_append, ma.Multiaddr.String, ma.Component.String,
    peer.ID.text_ne_empty, peer.ID.String]

theorem getHostAddress_nil (h : Host) (ha : h.Addrs = []) : getHostAddress h = "no addresses" := by
  simp [getHostAddress, ha]

/-! ## The address query: claims -/

/-- C4, as the code has it. For every host whose list of listen addresses is
empty, `getHostAddress` returns the fixed text `no addresses`; its result is a
plain string and carries no error. -/
theorem getHostAddress_empty_addrs (h : Host) (ha : h.Addrs = []) :
    getHostAddress h = "no addresses" :=
  getHostAddress_nil h ha

/-- C4, the amended statement at a host without listen addresses. -/
theorem getHostAddress_empty_addrs_witness :
    hostWithoutAddrs.Addrs = [] ∧ getHostAddress hostWithoutAddrs = "no addresses" :=
  ⟨rfl, getHostAddress_empty_addrs hostWithoutAddrs rfl⟩

/-- C4 as stated fails: a host with no listen addresses gets back the
placeholder text `no addresses`, which is an ordinary string result and does not
even read as a multiaddress. -/
theorem getHostAddress_returns_placeholder :
    hostWithoutAddrs.Addrs = [] ∧
    getHostAddress hostWithoutAddrs = "no addresses" ∧
    (ma.NewMultiaddr (getHostAddress hostWithoutAddrs)).2 ≠ none := by
  decide

/-- C5. For every host with a non-empty list of listen addresses, `getHostAddress`
returns the text of the first listen address followed by `/p2p/` and the text of
the peer ID: the result is their concatenation, starts with the former and ends
with the latter, whatever the other listen addresses are. -/
theorem getHostAddress_first_addr (h : Host) (addr : ma.Multiaddr) (rest : List ma.Multiaddr)
    (ha : h.Addrs = addr :: rest) :
    getHostAddress h = addr.String ++ ("/p2p/" ++ h.ID.String) ∧
    addr.String.toList <+: (getHostAddress h).toList ∧
    ("/p2p/" ++ h.ID.String).toList <:+ (getHostAddress h).toList := by
  have e := getHostAddress_cons h addr rest ha
  refine ⟨e, ?_, ?_⟩
  · rw [e]
    exact ⟨("/p2p/" ++ h.ID.String).toList, by simp [String.toList]⟩
  · rw [e]
    exact ⟨addr.String.toList, by simp [String.toList]⟩

/-- C5 at a host with two listen addresses. -/
theorem getHostAddress_first_addr_witness :
    demoHost.Addrs = loopbackAddr :: [lanAddr] ∧
    getHostAddress demoHost = "/ip4/127.0.0.1/tcp/8081/p2p/12D3KooWDemoPeer" ∧
    (getHostAddress demoHost = loopbackAddr.String ++ ("/p2p/" ++ demoHost.ID.String) ∧
      loopbackAddr.String.toList <+: (getHostAddress demoHost).toList ∧
      ("/p2p/" ++ demoHost.ID.String).toList <:+ (getHostAddress demoHost).toList) :=
  ⟨rfl, by decide, getHostAddress_first_addr demoHost loopbackAddr [lanAddr] rfl⟩

/-! ## The control endpoint: claims -/

/-- C6, as the code has it. When the host has no listen addresses, the handler
of `GET /connection-info` answers 200 with the one-key object whose
`connection_info` value is the text `no addresses`. -/
theorem getConnectionInfo_empty_addrs (ha : Host) (h : ha.Addrs = []) :
    (getConnectionInfo ha).status = 200 ∧
    (getConnectionInfo ha).body =
      gin.JSON.obj [("connection_info", gin.JSON.str "no addresses")] := by
  simp [getConnectionInfo, gin.IndentedJSON, http.StatusOK, getHostAddress_nil ha h]

/-- C6, the amended statement at a host without listen addresses. -/
theorem getConnectionInfo_empty_addrs_witness :
    hostWithoutAddrs.Addrs = [] ∧
    (getConnectionInfo hostWithoutAddrs).status = 200 ∧
    (getConnectionInfo hostWithoutAddrs).body =
      gin.JSON.obj [("connection_info", gin.JSON.str "no addresses")] :=
  ⟨rfl, getConnectionInfo_empty_addrs hostWithoutAddrs rfl⟩

/-- C6 as stated fails: for a host with no listen addresses the handler answers
200, not a 5xx status, and the body is a `connection_info` object, not an error
body. -/
theorem getConnectionInfo_answers_200_without_addrs :
    hostWithoutAddrs.Addrs = [] ∧
    (getConnectionInfo hostWithoutAddrs).status = 200 ∧
    ¬ (500 ≤ (getConnectionInfo hostWithoutAddrs).status ∧
        (getConnectionInfo hostWithoutAddrs).status ≤ 599) ∧
    (getConnectionInfo hostWithoutAddrs).body =
      gin.JSON.obj [("connection_info", gin.JSON.str "no addresses")] := by
  refine ⟨rfl, rfl, ?_, rfl⟩
  decide

/-- C7. For every host state with at least one listen address, the handler of
`GET /connection-info` answers 200 with a JSON object of exactly one key,
`connection_info`, whose value is the string `getHostAddress` returns for that
host state: the first listen address followed by `/p2p/` and the host's peer
ID. -/
theorem getConnectionInfo_ok (ha : Host) (addr : ma.Multiaddr) (rest : List ma.Multiaddr)
    (h : ha.Addrs = addr :: rest) :
    (getConnectionInfo ha).status = 200 ∧
    (getConnectionInfo ha).body =
      gin.JSON.obj [("connection_info", gin.JSON.str (getHostAddress ha))] ∧
    getHostAddress ha = addr.String ++ ("/p2p/" ++ ha.ID.String) :=
  ⟨rfl, rfl, getHostAddress_cons ha addr rest h⟩

/-- C7 at a host with two listen addresses. -/
theorem getConnectionInfo_ok_witness :
    demoHost.Addrs = loopbackAddr :: [lanAddr] ∧
    (getConnectionInfo demoHost).status = 200 ∧
    (getConnectionInfo demoHost).body =
      gin.JSON.obj [("connection_info", gin.JSON.str (getHostAddress demoHost))] ∧
    getHostAddress demoHost = loopbackAddr.String ++ ("/p2p/" ++ demoHost.ID.String) :=
  ⟨rfl, getConnectionInfo_ok demoHost loopbackAddr [lanAddr] rfl⟩

/-! ## Facts about host construction -/

theorem libp2p.New_hostOptions (alg : Algorithms) (w : World) (listenPort : Int)
    (insecure : Bool) (priv : crypto.PrivKey) (h : Host)
    (hn : libp2p.New alg w (hostOptions listenPort insecure priv) = Except.ok h) :
    h.PeerKey = priv ∧ h.ID = alg.IDFromPublicKey priv.GetPublic ∧ h.Insecure = insecure ∧
      ∃ listenAddrs, w.listen listenAddrs = Except.ok h.Addrs := by
  cases hp : (ma.NewMultiaddr ("/ip4/0.0.0.0/tcp/" ++ toString listenPort)).2 with
  | some err =>
    cases insecure <;>
      simp [libp2p.New, hostOptions, libp2p.applyAll, libp2p.HostOption.apply, hp] at hn
  | none =>
    cases insecure with
    | false =>
      simp only [libp2p.New, hostOptions, libp2p.applyAll, libp2p.HostOption.apply, hp] at hn
      split at hn
      · exact absurd hn (by simp)
      · rename_i addrs hl
        simp only [Except.ok.injEq] at hn
        subst hn
        exact ⟨rfl, rfl, rfl, _, hl⟩
    | true =>
      simp only [libp2p.New, hostOptions, libp2p.applyAll, libp2p.HostOption.apply, hp] at hn
      split at hn
      · exact absurd hn (by simp)
      · rename_i addrs hl
        simp only [Except.ok.injEq] at hn
        subst hn
        exact ⟨rfl, rfl, rfl, _, hl⟩

theorem makeBasicHost_keygen_error (alg : Algorithms) (w : World) (listenPort : Int)
    (insecure : Bool) (randseed : Int) (err : Error)
    (hk : crypto.GenerateKeyPairWithReader alg w crypto.KeyType.Ed25519 2048
      (randSource randseed) = Except.error err) :
    makeBasicHost alg w listenPort insecure randseed = (none, some err) := by
  simp only [makeBasicHost, hk]

theorem makeBasicHost_new_error (alg : Algorithms) (w : World) (listenPort : Int)
    (insecure : Bool) (randseed : Int) (priv : crypto.PrivKey) (pub : crypto.PubKey) (err : Error)
    (hk : crypto.GenerateKeyPairWithReader alg w crypto.KeyType.Ed25519 2048
      (randSource randseed) = Except.ok (priv, pub))
    (hn : libp2p.New alg w (hostOptions listenPort insecure priv) = Except.error err) :
    makeBasicHost alg w listenPort insecure randseed = (none, some err) := by
  simp only [makeBasicHost, hk, hn]

theorem makeBasicHost_new_ok (alg : Algorithms) (w : World) (listenPort : Int)
    (insecure : Bool) (randseed : Int) (priv : crypto.PrivKey) (pub : crypto.PubKey) (bhost : Host)
    (hk : crypto.GenerateKeyPairWithReader alg w crypto.KeyType.Ed25519 2048
      (randSource randseed) = Except.ok (priv, pub))
    (hn : libp2p.New alg w (hostOptions listenPort insecure priv) = Except.ok bhost) :
    makeBasicHost alg w listenPort insecure randseed =
      if bhost.Addrs.length = 0 then (none, some (Error.errorf "no addresses"))
      else (some bhost, none) := by
  simp only [makeBasicHost, hk, hn]

theorem makeBasicHost_ok_iff (alg : Algorithms) (w : World) (listenPort : Int) (insecure : Bool)
    (randseed : Int) (h : Host) :
    makeBasicHost alg w listenPort insecure randseed = (some h, none) ↔
      ∃ priv pub,
        crypto.GenerateKeyPairWithReader alg w crypto.KeyType.Ed25519 2048 (randSource randseed) =
          Except.ok (priv, pub) ∧
        libp2p.New alg w (hostOptions listenPort insecure priv) = Except.ok h ∧
        h.Addrs ≠ [] := by
  cases hk : crypto.GenerateKeyPairWithReader alg w crypto.KeyType.Ed25519 2048
      (randSource randseed) with
  | error err =>
    rw [makeBasicHost_keygen_error alg w listenPort insecure randseed err hk]
    simp
  | ok kp =>
    obtain ⟨priv, pub⟩ := kp
    cases hn : libp2p.New alg w (hostOptions listenPort insecure priv) with
    | error err =>
      rw [makeBasicHost_new_error alg w listenPort insecure randseed priv pub err hk hn]
      simp [hn]
    | ok bhost =>
      rw [makeBasicHost_new_ok alg w listenPort insecure randseed priv pub bhost hk hn]
      by_cases ha : bhost.Addrs = []
      · simp only [ha, List.length_nil, if_true]
        constructor
        · intro e
          exact absurd e (by simp)
        · rintro ⟨p, q, e1, e2, e3⟩
          simp only [Except.ok.injEq, Prod.mk.injEq] at e1
          rw [← e1.1, hn] at e2
          simp only [Except.ok.injEq] at e2
          rw [← e2] at e3
          exact absurd ha e3
      · have hl : bhost.Addrs.length ≠ 0 := by
          simpa [List.length_eq_zero] using ha
        simp only [hl, if_false]
        constructor
        · intro e
          simp only [Prod.mk.injEq, Option.some.injEq, and_true] at e
          subst e
          exact ⟨priv, pub, rfl, hn, ha⟩
        · rintro ⟨p, q, e1, e2, e3⟩
          simp only [Except.ok.injEq, Prod.mk.injEq] at e1
          rw [← e1.1, hn] at e2
          simp only [Except.ok.injEq] at e2
          rw [e2]

theorem makeBasicHost_shape (alg : Algorithms) (w : World) (listenPort : Int) (insecure : Bool)
    (randseed : Int) :
    (∃ err, makeBasicHost alg w listenPort insecure randseed = (none, some err)) ∨
    (∃ h, makeBasicHost alg w listenPort insecure randseed = (some h, none)) := by
  cases hk : crypto.GenerateKeyPairWithReader alg w crypto.KeyType.Ed25519 2048
      (randSource randseed) with
  | error err =>
    exact Or.inl ⟨err, makeBasicHost_keygen_error alg w listenPort insecure randseed err hk⟩
  | ok kp =>
    obtain ⟨priv, pub⟩ := kp
    cases hn : libp2p.New alg w (hostOptions listenPort insecure priv) with
    | error err =>
      exact Or.inl ⟨err,
        makeBasicHost_new_error alg w listenPort insecure randseed priv pub err hk hn⟩
    | ok bhost =>
      rw [makeBasicHost_new_ok alg w listenPort insecure randseed priv pub bhost hk hn]
      by_cases hl : bhost.Addrs.length = 0
      · exact Or.inl ⟨Error.errorf "no addresses", by simp only [hl, if_true]⟩
      · exact Or.inr ⟨bhost, by simp only [hl, if_false]⟩

theorem keygen_of_read_error (alg : Algorithms) (w : World) (src : RandReader) (err : Error)
    (hr : src.ReadFull alg w 32 = Except.error err) :
    crypto.GenerateKeyPairWithReader alg w crypto.KeyType.Ed25519 2048 src = Except.error err := by
  simp only [crypto.GenerateKeyPairWithReader, crypto.GenerateEd25519Key, hr]

theorem keygen_of_read_ok (alg : Algorithms) (w : World) (src : RandReader) (bytes : List Byte)
    (hr : src.ReadFull alg w 32 = Except.ok bytes) :
    crypto.GenerateKeyPairWithReader alg w crypto.KeyType.Ed25519 2048 src =
      Except.ok (ed25519.NewKeyFromSeed alg bytes, (ed25519.NewKeyFromSeed alg bytes).GetPublic) := by
  simp only [crypto.GenerateKeyPairWithReader, crypto.GenerateEd25519Key, hr]

theorem readFull_seeded (alg : Algorithms) (w : World) (seed : Int) (hseed : seed ≠ 0) (n : Nat) :
    (randSource seed).ReadFull alg w n = Except.ok ((List.range n).map (alg.mrandByte seed)) := by
  simp [RandReader.ReadFull, RandReader.supply, randSource, hseed]

theorem readFull_unseeded (alg : Algorithms) (w : World) (n : Nat) :
    (randSource 0).ReadFull alg w n =
      match w.osRandom with
      | Except.ok f => Except.ok ((List.range n).map f)
      | Except.error err => Except.error err := by
  simp only [RandReader.ReadFull, RandReader.supply, randSource, if_true]

theorem keygen_seeded (alg : Algorithms) (w : World) (seed : Int) (hseed : seed ≠ 0) :
    crypto.GenerateKeyPairWithReader alg w crypto.KeyType.Ed25519 2048 (randSource seed) =
      Except.ok
        (ed25519.NewKeyFromSeed alg ((List.range 32).map (alg.mrandByte seed)),
         (ed25519.NewKeyFromSeed alg ((List.range 32).map (alg.mrandByte seed))).GetPublic) :=
  keygen_of_read_ok alg w (randSource seed) _ (readFull_seeded alg w seed hseed 32)

/-! ## Host construction: claims -/

/-- C8. Identity generation in `makeBasicHost` takes its randomness from a
source chosen by the seed alone, and the key of the host is made from the 32
bytes read from that source: when the read fails `makeBasicHost` returns that
error, otherwise it goes on to `libp2p.New` with the key of those bytes, and any
host it returns has that key and the peer ID of its public key.  For seed 0 the
source is the operating system's cryptographic source and the bytes are the
entropy of the run.  For every nonzero seed the source is the pseudorandom
source seeded with that seed: every read returns the generator's bytes for that
seed and never fails, so any two runs feed the same bytes to Ed25519 key
generation, get the same key pair, and any hosts they build have the same key
and peer ID. -/
theorem identity_source_from_seed_alone (alg : Algorithms) (w1 w2 : World) (listenPort : Int)
    (insecure : Bool) (seed : Int) :
    randSource 0 = RandReader.cryptoReader ∧
    (seed ≠ 0 → randSource seed = RandReader.mathRand seed) ∧
    (∀ err, (randSource seed).ReadFull alg w1 32 = Except.error err →
      makeBasicHost alg w1 listenPort insecure seed = (none, some err)) ∧
    (∀ bytes, (randSource seed).ReadFull alg w1 32 = Except.ok bytes →
      makeBasicHost alg w1 listenPort insecure seed =
        match libp2p.New alg w1
            (hostOptions listenPort insecure (ed25519.NewKeyFromSeed alg bytes)) with
        | Except.error err => (none, some err)
        | Except.ok bhost =>
          if bhost.Addrs.length = 0 then (none, some (Error.errorf "no addresses"))
          else (some bhost, none)) ∧
    (∀ bytes h, (randSource seed).ReadFull alg w1 32 = Except.ok bytes →
      makeBasicHost alg w1 listenPort insecure seed = (some h, none) →
      h.PeerKey = ed25519.NewKeyFromSeed alg bytes ∧
      h.ID = alg.IDFromPublicKey (ed25519.NewKeyFromSeed alg bytes).GetPublic) ∧
    (seed = 0 → ∀ n, (randSource seed).ReadFull alg w1 n =
      match w1.osRandom with
      | Except.ok f => Except.ok ((List.range n).map f)
      | Except.error err => Except.error err) ∧
    (seed ≠ 0 → ∀ n, (randSource seed).ReadFull alg w1 n =
      Except.ok ((List.range n).map (alg.mrandByte seed))) ∧
    (seed ≠ 0 → ∀ n, (randSource seed).ReadFull alg w1 n = (randSource seed).ReadFull alg w2 n) ∧
    (seed ≠ 0 → ∃ kp,
      crypto.GenerateKeyPairWithReader alg w1 crypto.KeyType.Ed25519 2048 (randSource seed) =
        Except.ok kp ∧
      crypto.GenerateKeyPairWithReader alg w2 crypto.KeyType.Ed25519 2048 (randSource seed) =
        Except.ok kp) ∧
    (seed ≠ 0 → ∀ (port2 : Int) (insecure2 : Bool) (h1 h2 : Host),
      makeBasicHost alg w1 listenPort insecure seed = (some h1, none) →
      makeBasicHost alg w2 port2 insecure2 seed = (some h2, none) →
      h1.PeerKey = h2.PeerKey ∧ h1.ID = h2.ID) := by
  have key : ∀ (w : World) (port : Int) (ins : Bool) (bytes : List Byte) (h : Host),
      (randSource seed).ReadFull alg w 32 = Except.ok bytes →
      makeBasicHost alg w port ins seed = (some h, none) →
      h.PeerKey = ed25519.NewKeyFromSeed alg bytes ∧
      h.ID = alg.IDFromPublicKey (ed25519.NewKeyFromSeed alg bytes).GetPublic := by
    intro w port ins bytes h hr e
    obtain ⟨p, q, k, n, _⟩ := (makeBasicHost_ok_iff alg w port ins seed h).1 e
    rw [keygen_of_read_ok alg w (randSource seed) bytes hr] at k
    simp only [Except.ok.injEq, Prod.mk.injEq] at k
    obtain ⟨a1, a2, _, _⟩ := libp2p.New_hostOptions alg w port ins p h n
    rw [a1, a2, ← k.1]
    exact ⟨rfl, rfl⟩
  refine ⟨rfl, ?_, ?_, ?_, key w1 listenPort insecure, ?_, ?_, ?_, ?_, ?_⟩
  · intro hseed
    simp [randSource, hseed]
  · intro err hr
    exact makeBasicHost_keygen_error alg w1 listenPort insecure seed err
      (keygen_of_read_error alg w1 (randSource seed) err hr)
  · intro bytes hr
    have hk := keygen_of_read_ok alg w1 (randSource seed) bytes hr
    cases hn : libp2p.New alg w1
        (hostOptions listenPort insecure (ed25519.NewKeyFromSeed alg bytes)) with
    | error err => exact makeBasicHost_new_error alg w1 listenPort insecure seed _ _ err hk hn
    | ok bhost => exact makeBasicHost_new_ok alg w1 listenPort insecure seed _ _ bhost hk hn
  · intro hseed n
    rw [hseed]
    exact readFull_unseeded alg w1 n
  · intro hseed n
    exact readFull_seeded alg w1 seed hseed n
  · intro hseed n
    rw [readFull_seeded alg w1 seed hseed n, readFull_seeded alg w2 seed hseed n]
  · intro hseed
    exact ⟨_, keygen_seeded alg w1 seed hseed, keygen_seeded alg w2 seed hseed⟩
  · intro hseed port2 insecure2 h1 h2 e1 e2
    obtain ⟨a1, b1⟩ := key w1 listenPort insecure _ h1 (readFull_seeded alg w1 seed hseed 32) e1
    obtain ⟨a2, b2⟩ := key w2 port2 insecure2 _ h2 (readFull_seeded alg w2 seed hseed 32) e2
    rw [a1, a2, b1, b2]
    exact ⟨rfl, rfl⟩

/-- C8 in three runs.  At seed 42 two runs with different entropy, ports and
flags build hosts with the same key, made from the generator's bytes; at seed 0
the same two runs build hosts with different keys, made from each run's
entropy; at seed 0 a run whose entropy source fails gets that error and no
host, while at seed 42 the same run gets past key generation. -/
theorem identity_source_from_seed_alone_witness :
    ((makeBasicHost demoAlgorithms calmWorld 8081 false 42).1.map (fun h => h.PeerKey.secret.take 4) =
        some [42, 49, 56, 63] ∧
      (makeBasicHost demoAlgorithms busyWorld 9000 true 42).1.map (fun h => h.PeerKey) =
        (makeBasicHost demoAlgorithms calmWorld 8081 false 42).1.map (fun h => h.PeerKey)) ∧
    ((makeBasicHost demoAlgorithms calmWorld 8081 false 0).1.map (fun h => h.PeerKey.secret.take 4) =
        some [1, 4, 7, 10] ∧
      (makeBasicHost demoAlgorithms busyWorld 9000 true 0).1.map (fun h => h.PeerKey.secret.take 4) =
        some [2, 7, 12, 17]) ∧
    (makeBasicHost demoAlgorithms roughWorld 8081 false 42).2 =
      some (Error.lib "address already in use") ∧
    makeBasicHost demoAlgorithms roughWorld 8081 false 0 =
      (none, some (Error.lib "entropy source unavailable")) ∧
    (∃ kp,
      crypto.GenerateKeyPairWithReader demoAlgorithms calmWorld crypto.KeyType.Ed25519 2048
        (randSource 42) = Except.ok kp ∧
      crypto.GenerateKeyPairWithReader demoAlgorithms busyWorld crypto.KeyType.Ed25519 2048
        (randSource 42) = Except.ok kp) :=
  ⟨⟨by decide, by decide⟩, ⟨by decide, by decide⟩, by decide,
    (identity_source_from_seed_alone demoAlgorithms roughWorld calmWorld 8081 false 0).2.2.1
      (Error.lib "entropy source unavailable") rfl,
    (identity_source_from_seed_alone demoAlgorithms calmWorld busyWorld 8081 false 42).2.2.2.2.2.2.2.2.1
      (by decide)⟩

/-- C9. The option list `makeBasicHost` passes to `libp2p.New` contains the
no-transport-security option exactly when its `insecure` argument is true, and
every host it returns was built from that list and is insecure exactly when the
argument is true.  `main` calls `makeBasicHost(P2P_PORT, false, 0)`, so whenever
the process is up its host is set and has transport security enabled. -/
theorem insecure_only_on_request (alg : Algorithms) (w : World) (listenPort : Int)
    (insecure : Bool) (priv : crypto.PrivKey) :
    (libp2p.HostOption.NoSecurity ∈ hostOptions listenPort insecure priv ↔ insecure = true) ∧
    (∀ (seed : Int) (h : Host),
      makeBasicHost alg w listenPort insecure seed = (some h, none) →
      ∃ key, libp2p.New alg w (hostOptions listenPort insecure key) = Except.ok h ∧
        h.Insecure = insecure) ∧
    (∀ (ha : Option Host) (protocol : String) (handler : Stream → Outcome Stream)
        (routes : List (String × (Host → gin.Response))),
      main alg w = Process.running ha protocol handler routes →
      makeBasicHost alg w P2P_PORT false 0 = (ha, none) ∧
      ∃ h, ha = some h ∧ h.Insecure = false) := by
  refine ⟨?_, ?_, ?_⟩
  · cases insecure <;> simp [hostOptions]
  · intro seed h e
    obtain ⟨p, q, _, n, _⟩ := (makeBasicHost_ok_iff alg w listenPort insecure seed h).1 e
    exact ⟨p, n, (libp2p.New_hostOptions alg w listenPort insecure p h n).2.2.1⟩
  · intro ha protocol handler routes e
    rcases makeBasicHost_shape alg w P2P_PORT false 0 with ⟨err, he⟩ | ⟨h, he⟩
    · simp [main, he] at e
    · simp only [main, he, Process.running.injEq] at e
      obtain ⟨p, q, _, n, _⟩ := (makeBasicHost_ok_iff alg w P2P_PORT false 0 h).1 he
      rw [← e.1]
      exact ⟨he, h, rfl, (libp2p.New_hostOptions alg w P2P_PORT false p h n).2.2.1⟩

/-- C9 at the port and flag `main` uses. -/
theorem insecure_only_on_request_witness :
    libp2p.HostOption.NoSecurity ∉ hostOptions P2P_PORT false demoKey ∧
    libp2p.HostOption.NoSecurity ∈ hostOptions P2P_PORT true demoKey ∧
    (libp2p.HostOption.NoSecurity ∈ hostOptions P2P_PORT false demoKey ↔ false = true) :=
  ⟨by decide, by decide,
    (insecure_only_on_request demoAlgorithms calmWorld P2P_PORT false demoKey).1⟩

/-- C10. `makeBasicHost` never yields a partial result.  Whenever it returns a
non-nil error the returned host is nil, and this happens exactly when key
generation failed, `libp2p.New` failed, or the new host reports no listen
address.  Whenever it returns a nil error the returned host is non-nil, is the
host `libp2p.New` built from the options carrying the generated private key, has
that key and the peer ID of its public key, and reports at least one listen
address. -/
theorem makeBasicHost_no_partial_result (alg : Algorithms) (w : World) (listenPort : Int)
    (insecure : Bool) (randseed : Int) :
    ((makeBasicHost alg w listenPort insecure randseed).2 ≠ none →
      (makeBasicHost alg w listenPort insecure randseed).1 = none) ∧
    ((makeBasicHost alg w listenPort insecure randseed).2 = none →
      ∃ h priv pub,
        (makeBasicHost alg w listenPort insecure randseed).1 = some h ∧
        crypto.GenerateKeyPairWithReader alg w crypto.KeyType.Ed25519 2048 (randSource randseed) =
          Except.ok (priv, pub) ∧
        libp2p.New alg w (hostOptions listenPort insecure priv) = Except.ok h ∧
        h.PeerKey = priv ∧ h.ID = alg.IDFromPublicKey priv.GetPublic ∧ h.Addrs ≠ []) ∧
    ((makeBasicHost alg w listenPort insecure randseed).2 ≠ none ↔
      (∃ err, crypto.GenerateKeyPairWithReader alg w crypto.KeyType.Ed25519 2048
          (randSource randseed) = Except.error err) ∨
      (∃ priv pub, crypto.GenerateKeyPairWithReader alg w crypto.KeyType.Ed25519 2048
          (randSource randseed) = Except.ok (priv, pub) ∧
        ((∃ err, libp2p.New alg w (hostOptions listenPort insecure priv) = Except.error err) ∨
          ∃ h, libp2p.New alg w (hostOptions listenPort insecure priv) = Except.ok h ∧
            h.Addrs = []))) := by
  refine ⟨?_, ?_, ?_⟩
  · intro he
    rcases makeBasicHost_shape alg w listenPort insecure randseed with ⟨err, e⟩ | ⟨h, e⟩
    · rw [e]
    · rw [e] at he
      exact absurd rfl he
  · intro he
    rcases makeBasicHost_shape alg w listenPort insecure randseed with ⟨err, e⟩ | ⟨h, e⟩
    · rw [e] at he
      exact absurd he (by simp)
    · obtain ⟨p, q, k, n, a⟩ := (makeBasicHost_ok_iff alg w listenPort insecure randseed h).1 e
      obtain ⟨a1, a2, _, _⟩ := libp2p.New_hostOptions alg w listenPort insecure p h n
      exact ⟨h, p, q, by rw [e], k, n, a1, a2, a⟩
  · cases hk : crypto.GenerateKeyPairWithReader alg w crypto.KeyType.Ed25519 2048
        (randSource randseed) with
    | error err =>
      rw [makeBasicHost_keygen_error alg w listenPort insecure randseed err hk]
      simp
    | ok kp =>
      obtain ⟨priv, pub⟩ := kp
      cases hn : libp2p.New alg w (hostOptions listenPort insecure priv) with
      | error err =>
        rw [makeBasicHost_new_error alg w listenPort insecure randseed priv pub err hk hn]
        simp [hn]
      | ok bhost =>
        rw [makeBasicHost_new_ok alg w listenPort insecure randseed priv pub bhost hk hn]
        by_cases ha : bhost.Addrs = []
        · simp [ha, hn]
        · have hl : bhost.Addrs.length ≠ 0 := by
            simpa [List.length_eq_zero] using ha
          simp [hl, hn, ha]

/-- C10 in a run where everything works and in a run where the entropy source
fails: a host and no error in the first, an error and no host in the second. -/
theorem makeBasicHost_no_partial_result_witness :
    (makeBasicHost demoAlgorithms calmWorld P2P_PORT false 0).2 = none ∧
    (makeBasicHost demoAlgorithms calmWorld P2P_PORT false 0).1.isSome = true ∧
    (makeBasicHost demoAlgorithms roughWorld P2P_PORT false 0).2 =
      some (Error.lib "entropy source unavailable") ∧
    (makeBasicHost demoAlgorithms roughWorld P2P_PORT false 0).1 = none :=
  ⟨by decide, by decide, by decide,
    (makeBasicHost_no_partial_result demoAlgorithms roughWorld P2P_PORT false 0).1 (by decide)⟩
end GinDemo
